import Mathlib

/-!
Verification development for the SIGE enrollment dashboard (`app.py`).

The dashboard's core is a batch transform over an in-memory table:

* `carregar_csv` (app.py lines 47-59) loads a semicolon-delimited report and
  normalizes six numeric measure columns with the pandas pipeline
  `astype(str).str.replace(".", "").str.replace("-", "0")` followed by
  `to_numeric(errors="coerce").fillna(0).astype(int)`;
* `extrair_etapa` (lines 62-74) derives the categorical stage label from the
  free-text `Descricao` column;
* `main` (lines 302-310) applies an equality filter on `Municipio` and
  membership filters on `Etapa`/`Status`;
* `gerar_xlsx` (lines 77-142) and `gerar_xlsx_por_municipio` (lines 145-223)
  render the filtered table into workbook artifacts.

Strings are modelled as `List Char` (Python `str` operations become explicit
list transformations); missing cells (pandas `NaN`) are `Option.none`.
Python `str.strip()` is modelled over its full Unicode whitespace set
(`pyWsChar`); the pandas numeric parser's blank skipping is the strictly
smaller C `isspace` set (`isWsChar`).  Numbers are handled in two layers:
the exact pipeline `normalizeCell` over unbounded integers, faithful on the
int64 fragment (parse magnitudes below 2^63), and `normalizeCell64`, which
adds the modulo-2^64 `astype(int)` wrap of the uint64 path.  Universal
theorems are bounded to the fragment where the chosen layer agrees with the
program; parse magnitudes at or above 2^64 route through float64 (rounding,
or overflow to an infinity that makes `astype(int)` raise) and stay outside
every theorem's quantified range.  `pd.read_csv` is an external input of the
model: records are taken as its per-column handover to line 56 (see
`RawRow`), including the column dtype inference that re-renders fully
numeric-parseable columns.
-/

/-! ### Python string primitives over `List Char` -/

/-- ASCII whitespace as recognized by the C `isspace` the pandas numeric
parser uses to skip blanks around a number: space, tab, newline, carriage
return, vertical tab, form feed.  This is strictly smaller than Python's
`str.strip()` whitespace (see `pyWsChar`): `pd.to_numeric` does not skip
Unicode spaces. -/
def isWsChar (c : Char) : Bool :=
  c.toNat = 32 || c.toNat = 9 || c.toNat = 10 || c.toNat = 13 || c.toNat = 11 || c.toNat = 12

/-- The full whitespace set of Python `str.strip()` (CPython's unicode space
predicate): the C whitespace plus the separator controls 0x1C-0x1F, NEL
(0x85), NBSP (0xA0), Ogham space (0x1680), the typographic spaces
0x2000-0x200A, line/paragraph separators (0x2028, 0x2029), narrow no-break
space (0x202F), medium mathematical space (0x205F), and ideographic space
(0x3000). -/
def pyWsChar (c : Char) : Bool :=
  c.toNat = 32 || (9 ≤ c.toNat && c.toNat ≤ 13) || (28 ≤ c.toNat && c.toNat ≤ 31) ||
  c.toNat = 133 || c.toNat = 160 || c.toNat = 5760 ||
  (8192 ≤ c.toNat && c.toNat ≤ 8202) || c.toNat = 8232 || c.toNat = 8233 ||
  c.toNat = 8239 || c.toNat = 8287 || c.toNat = 12288

/-- Drop the leading and trailing runs of characters satisfying `w`. -/
def stripWith (w : Char → Bool) (cs : List Char) : List Char :=
  ((cs.dropWhile w).reverse.dropWhile w).reverse

/-- Python `str.strip()`: drop leading and trailing Unicode whitespace. -/
def stripList (cs : List Char) : List Char := stripWith pyWsChar cs

/-- The whitespace skipping of the pandas numeric parser (C `isspace` only:
a no-break space around a number is not skipped and the parse fails). -/
def stripNum (cs : List Char) : List Char := stripWith isWsChar cs

/-- Decimal digit character test ('0' has code 48, '9' has code 57). -/
def isDigitCh (c : Char) : Bool := 48 ≤ c.toNat && c.toNat ≤ 57

/-- ASCII lower-casing of a single character (used to model the
case-insensitive `nan`/`inf` recognition of the pandas numeric parser). -/
def lowerAscii (c : Char) : Char :=
  if 65 ≤ c.toNat ∧ c.toNat ≤ 90 then Char.ofNat (c.toNat + 32) else c

/-- Value of a most-significant-first decimal digit string. -/
def digitsVal (cs : List Char) : Nat :=
  cs.foldl (fun a c => 10 * a + (c.toNat - 48)) 0

/-- Split an optional leading sign off a numeric literal; returns
(negative?, remainder). -/
def splitSign (cs : List Char) : Bool × List Char :=
  match cs with
  | [] => (false, [])
  | c :: r => if c = '+' then (false, r) else if c = '-' then (true, r) else (false, c :: r)

/-- Boolean test that `pat` is a leading segment of `l` (used to model
occurrence search for Python `in` and `str.rsplit`). -/
def leadsWith : List Char → List Char → Bool
  | [], _ => true
  | _ :: _, [] => false
  | a :: as, b :: bs => a == b && leadsWith as bs

/-- Python `s.rsplit(sep, 1)[-1]` when `sep` occurs in `s`: the segment after
the rightmost occurrence of `sep`; `none` when `sep` does not occur (which
also models the Python `sep in s` test). -/
def afterLastAux (sep : List Char) : List Char → Option (List Char)
  | [] => none
  | c :: cs =>
    match afterLastAux sep cs with
    | some r => some r
    | none => if leadsWith sep (c :: cs) then some ((c :: cs).drop sep.length) else none

/-! ### Numeric Normalizer (app.py line 56)

The pandas expression applied to each measure column is

  pd.to_numeric(col.astype(str).str.replace(".", "", regex=False)
                               .str.replace("-", "0", regex=False),
                errors="coerce").fillna(0).astype(int)

`to_numeric` is modelled by `toNumeric` below.  Its argument never contains
'.' or '-' (both are rewritten away first), so the parser model covers the
integer grammar with optional sign and exponent, plus the `nan`/`inf` words;
fractional syntax is unreachable in this pipeline and is not modelled. -/

/-- Result of the pandas numeric parse: `NaN` (unparseable text coerced by
`errors="coerce"`, or a literal `nan`), an IEEE infinity (the words
`inf`/`infinity`), or a finite value. -/
inductive NumRes where
  | nanR
  | infR
  | valR (z : Int)
  deriving DecidableEq

/-- Exponent suffix of a numeric literal (after the `e`/`E` marker): an
optional sign and a nonempty digit run.  A negative exponent divides (the
subsequent `astype(int)` truncates toward zero, which for a nonnegative
magnitude is `Nat` division). -/
def parseExp (m : Nat) (cs : List Char) : Option Nat :=
  if (splitSign cs).2 ≠ [] ∧ (splitSign cs).2.all isDigitCh then
    some (if (splitSign cs).1 then m / 10 ^ digitsVal (splitSign cs).2
      else m * 10 ^ digitsVal (splitSign cs).2)
  else none

/-- Magnitude of a numeric literal after the sign: a nonempty digit run with
an optional exponent suffix. -/
def parseMag (cs : List Char) : Option Nat :=
  if cs.takeWhile isDigitCh = [] then none
  else if cs.dropWhile isDigitCh = [] then some (digitsVal (cs.takeWhile isDigitCh))
  else if (cs.dropWhile isDigitCh).head? = some 'e' ∨ (cs.dropWhile isDigitCh).head? = some 'E' then
    parseExp (digitsVal (cs.takeWhile isDigitCh)) (cs.dropWhile isDigitCh).tail
  else none

/-- Model of `pd.to_numeric(·, errors="coerce")` on a string cell: strip
whitespace, recognize `nan` and `inf`/`infinity` (case-insensitively), else
parse sign, digits and optional exponent; anything else coerces to NaN. -/
def toNumeric (cs0 : List Char) : NumRes :=
  if (stripNum cs0).map lowerAscii = ['n', 'a', 'n'] then .nanR
  else if (splitSign (stripNum cs0)).2.map lowerAscii = ['i', 'n', 'f'] ∨
      (splitSign (stripNum cs0)).2.map lowerAscii = ['i', 'n', 'f', 'i', 'n', 'i', 't', 'y'] then
    .infR
  else
    match parseMag (splitSign (stripNum cs0)).2 with
    | some m => .valR (if (splitSign (stripNum cs0)).1 then -(m : Int) else (m : Int))
    | none => .nanR

/-- Python/pandas `astype(str)` of a cell: a missing value (`NaN`) renders as
the literal string `nan`; a string cell is itself. -/
def cellStr : Option String → List Char
  | none => ['n', 'a', 'n']
  | some s => s.data

/-- Model of `str.replace(".", "", regex=False)`: delete every '.'. -/
def removeDots (cs : List Char) : List Char := cs.filter (fun c => c != '.')

/-- Model of `str.replace("-", "0", regex=False)`: rewrite every '-' to '0'. -/
def dashToZero (cs : List Char) : List Char :=
  cs.map (fun c => if c = '-' then '0' else c)

/-- The complete per-cell numeric normalization of app.py line 56 over exact
integers.  `fillna(0)` maps NaN to 0; `astype(int)` is the identity on
already-integral values that fit int64.  This definition is faithful exactly
on the fragment where the program's pipeline is exact: parse values of
magnitude below 2^63 (the int64 path).  Above int64 the program routes
through uint64 (wrapping at `astype(int)`, see `normalizeCell64`) or float64
(rounding, or overflow to infinity); a cell parsing to an infinity makes the
program's `astype(int)` raise — the `infR` branch here returns a placeholder
0 that no theorem relies on (the loader model turns that situation into the
no-data result, see `carregar_csv`).  Theorems about `normalizeCell` bound
their inputs to the faithful fragment. -/
def normalizeCell (v : Option String) : Int :=
  match toNumeric (dashToZero (removeDots (cellStr v))) with
  | .valR z => z
  | _ => 0

/-- The int64 cast numpy performs for `astype(int)` on a uint64-typed value:
reduction modulo 2^64 into the interval [-2^63, 2^63).  On values already in
int64 range it is the identity. -/
def astype_int64 (z : Int) : Int := (z + 2 ^ 63) % 2 ^ 64 - 2 ^ 63

/-- Program-faithful variant of `normalizeCell` for parse magnitudes within
uint64 range: an integer literal above int64 max is parsed by `to_numeric`
into a uint64 column and line 56's `astype(int)` wraps it modulo 2^64 into a
negative int64.  Magnitudes at or above 2^64 instead route through float64
and are outside this model. -/
def normalizeCell64 (v : Option String) : Int :=
  match toNumeric (dashToZero (removeDots (cellStr v))) with
  | .valR z => astype_int64 z
  | _ => 0

/-! ### Stage Extractor (`extrair_etapa`, app.py lines 62-74) -/

/-- Predicate for `s.split("|")[0]`: characters before the first pipe. -/
def notPipe (c : Char) : Bool := c != '|'

/-- The literal separator `" - "` of the stage syntax. -/
def sepDash : List Char := [' ', '-', ' ']

/-- Model of `extrair_etapa(desc)` (app.py lines 62-74): `None`/NaN maps to
the empty string; text containing a pipe is cut at the first pipe, stripped,
and, when `" - "` occurs in that part, cut after the last such occurrence and
stripped again; otherwise the exact (pre-stripped) text `TOTAL SECRETARIA`
maps to itself and everything else to `Total escola`. -/
def extrair_etapa (desc : Option String) : String :=
  match desc with
  | none => ""
  | some d =>
    if '|' ∈ stripList d.data then
      match afterLastAux sepDash (stripList ((stripList d.data).takeWhile notPipe)) with
      | some seg => String.mk (stripList seg)
      | none => String.mk (stripList ((stripList d.data).takeWhile notPipe))
    else if stripList d.data = "TOTAL SECRETARIA".data then "TOTAL SECRETARIA"
    else "Total escola"

/-! ### Table rows and the Table Loader (`carregar_csv`, app.py lines 47-59) -/

/-- One record as the normalization loop of app.py lines 54-56 receives it.
A measure cell holds the value its column presents to `astype(str)` after
`pd.read_csv` has parsed the file: for a column read_csv leaves as object
dtype (some cell fails its numeric inference — e.g. a "-" sentinel, as in
every measure column of the real report) this is the CSV text itself; for a
column read_csv type-infers as numeric it is the parsed value as the
subsequent `astype(str)` renders it (so a single-row `Mat. Total` column
["1.200"] arrives as "1.2", the float repr — the scenario of claim C1).
`none` is a missing/NA cell, which `astype(str)` renders as "nan".  The
non-measure columns hold the read_csv strings unchanged.  The report columns
are those listed in app.py line 270. -/
structure RawRow where
  secretaria : Option String
  municipio : Option String
  descricao : Option String
  matTotal : Option String
  naoEnturmados : Option String
  enturmados : Option String
  qtdTurmas : Option String
  matPresencial : Option String
  matSemipresencial : Option String
  status : Option String
  deriving DecidableEq

/-- One normalized table row.  The six measure columns are integers after
normalization; `etapa` is the derived stage column that `main` (app.py line
291) adds after loading — the loader itself leaves it at the empty-string
placeholder (the column does not exist yet at load time). -/
structure Row where
  secretaria : Option String
  municipio : Option String
  descricao : Option String
  matTotal : Int
  naoEnturmados : Int
  enturmados : Int
  qtdTurmas : Int
  matPresencial : Int
  matSemipresencial : Int
  status : Option String
  etapa : String
  deriving DecidableEq

/-- Per-row effect of the normalization loop of app.py lines 54-56 (all six
measure columns are present in the report schema). -/
def normalizeRawRow (r : RawRow) : Row :=
  { secretaria := r.secretaria
    municipio := r.municipio
    descricao := r.descricao
    matTotal := normalizeCell r.matTotal
    naoEnturmados := normalizeCell r.naoEnturmados
    enturmados := normalizeCell r.enturmados
    qtdTurmas := normalizeCell r.qtdTurmas
    matPresencial := normalizeCell r.matPresencial
    matSemipresencial := normalizeCell r.matSemipresencial
    status := r.status
    etapa := "" }

/-- The `df["Etapa"] = df["Descricao"].map(extrair_etapa)` step of `main`
(app.py line 291). -/
def addEtapa (r : Row) : Row := { r with etapa := extrair_etapa r.descricao }

/-- Outcome of the file read attempted by `carregar_csv`: the path does not
exist, `pd.read_csv` raised (malformed content), or it parsed a list of raw
records.  `pd.read_csv` itself is an external library call; its result is an
input of the model. -/
inductive CsvRead where
  | missing
  | parseError
  | parsed (rows : List RawRow)

/-- True when some measure cell of the record parses to a literally spelled
IEEE infinity (the words inf/infinity): on such input the `astype(int)` of
line 56 raises (pandas refuses to cast non-finite values to integer), which
the surrounding `except` turns into the no-data result.  Infinities produced
by float64 overflow of finite-looking literals (an exponent like "1e400", or
309-digit numbers) are outside the unbounded model's faithful fragment;
loader theorems exclude them through the `rowFinite` hypothesis below. -/
def rowHasInf (r : RawRow) : Bool :=
  [r.matTotal, r.naoEnturmados, r.enturmados,
   r.qtdTurmas, r.matPresencial, r.matSemipresencial].any
    (fun v => toNumeric (dashToZero (removeDots (cellStr v))) = .infR)

/-- A cell is inside the loader model's faithful fragment when its parse
outcome is NaN (coerced to 0) or a finite value within int64 range: there
the program's pipeline neither raises at `astype(int)` nor wraps through
uint64 nor rounds through float64. -/
def cellFinite (v : Option String) : Bool :=
  match toNumeric (dashToZero (removeDots (cellStr v))) with
  | .nanR => true
  | .infR => false
  | .valR z => z.natAbs < 2 ^ 63

/-- All six measure cells of the record are inside the faithful fragment. -/
def rowFinite (r : RawRow) : Bool :=
  [r.matTotal, r.naoEnturmados, r.enturmados,
   r.qtdTurmas, r.matPresencial, r.matSemipresencial].all cellFinite

/-- Model of `carregar_csv` (app.py lines 47-59): `None` for a missing path
or any caught exception, otherwise the normalized table.  The function is
total — no exception escapes to the caller. -/
def carregar_csv : CsvRead → Option (List Row)
  | .missing => none
  | .parseError => none
  | .parsed rows =>
    if rows.any rowHasInf then none else some (rows.map normalizeRawRow)

/-! ### Filter Engine (`main`, app.py lines 302-310) -/

/-- The user's filter selection: one municipality choice (the literal
`"Todos os Municípios"` is the no-restriction sentinel), and multiselect
lists for stage and status (empty list means no restriction). -/
structure Selection where
  municipio : String
  etapas : List String
  status : List String

/-- Membership test of an optional cell in a selected list, as pandas
`Series.isin`: a missing cell is never a member. -/
def optIsin (v : Option String) (l : List String) : Bool :=
  match v with
  | some s => l.contains s
  | none => false

/-- Row predicate assembled by app.py lines 303-309: each constraint is
skipped (contributes `true`) when its selection is the sentinel municipality
or the empty list. -/
def rowMask (sel : Selection) (r : Row) : Bool :=
  (if sel.municipio = "Todos os Municípios" then true
   else r.municipio = some sel.municipio)
  && (if sel.etapas.isEmpty then true else sel.etapas.contains r.etapa)
  && (if sel.status.isEmpty then true else optIsin r.status sel.status)

/-- The `df_filtrado = df[mask]` step (app.py line 310): keep, in order, the
rows satisfying the mask. -/
def filtrar (sel : Selection) (df : List Row) : List Row :=
  df.filter (rowMask sel)

/-! ### Workbook Formatter (`gerar_xlsx`, app.py lines 77-142)

The workbook is modelled at content level: the metadata sheet cells, the data
rows and the per-row conditional fill.  The fixed styling constants (header
fill and font), the auto-sized column widths (a function of the same data)
and the xlsx byte serialization are not separate inputs and are abstracted
away.  The extraction-timestamp file (read at lines 82-88) and the current
wall-clock time (`datetime.now()`, line 133) are ambient inputs of the code
and therefore explicit parameters of the model. -/

/-- The wall-clock instant read by `datetime.now()`, to minute precision (the
precision of the `"%d/%m/%Y às %H:%M"` format used at line 133). -/
structure Clock where
  day : Nat
  month : Nat
  year : Nat
  hour : Nat
  minute : Nat
  deriving DecidableEq

/-- Two-digit zero padding of `strftime`. -/
def pad2 (n : Nat) : String := if n < 10 then "0" ++ toString n else toString n

/-- The `strftime("%d/%m/%Y às %H:%M")` format of app.py line 133. -/
def fmtReportDate (c : Clock) : String :=
  pad2 c.day ++ "/" ++ pad2 c.month ++ "/" ++ toString c.year
    ++ " às " ++ pad2 c.hour ++ ":" ++ pad2 c.minute

/-- Conditional row fill of app.py lines 110-125. -/
inductive Fill where
  | yellow
  | red
  | noFill
  deriving DecidableEq

/-- The `status -> fill` derivation (lines 116-122): `Atenção` is yellow,
`Crítica` is red, anything else (including a missing status) is unfilled. -/
def statusFill (st : Option String) : Fill :=
  if st = some "Atenção" then .yellow
  else if st = some "Crítica" then .red
  else .noFill

/-- Content of the `Informações` sheet (created first, lines 128-139). -/
structure InfoSheet where
  title : String
  dataExtracao : String
  dataRelatorio : String
  filtros : List String
  deriving DecidableEq

/-- Content-level model of one produced workbook: the metadata sheet, the
data rows of the `Relatório` sheet, and the conditional fill of each data
row. -/
structure Workbook where
  info : InfoSheet
  data : List Row
  fills : List Fill
  deriving DecidableEq

/-- The extraction-timestamp string: `""` when the marker file is missing or
unreadable, else its content stripped (app.py lines 82-88). -/
def lerDataExtracao (logFile : Option String) : String :=
  match logFile with
  | none => ""
  | some t => String.mk (stripList t.data)

/-- Shared body of both exporters: the info sheet (title, extraction
timestamp or its placeholder, report timestamp, applied-filter bullets) plus
the data sheet rows and their status fills. -/
def buildWorkbook (title : String) (logFile : Option String) (now : Clock)
    (df : List Row) (filtros : List String) : Workbook :=
  { info :=
      { title := title
        dataExtracao :=
          if lerDataExtracao logFile ≠ "" then lerDataExtracao logFile else "Não informada"
        dataRelatorio := fmtReportDate now
        filtros := filtros }
    data := df
    fills := df.map (fun r => statusFill r.status) }

/-- Model of `gerar_xlsx` (app.py lines 77-142). -/
def gerar_xlsx (logFile : Option String) (now : Clock)
    (df : List Row) (filtros : List String) : Workbook :=
  buildWorkbook "Relatório SIGE - Mapa de Enturmação" logFile now df filtros

/-! ### Multi-Workbook Packager (`gerar_xlsx_por_municipio`, lines 145-223) -/

/-- Code-point lexicographic comparison on character lists: the total order
Python uses to compare strings (and hence the order of `sorted`). -/
def lexLe : List Char → List Char → Bool
  | [], _ => true
  | _ :: _, [] => false
  | a :: as, b :: bs =>
    if a.toNat < b.toNat then true
    else if b.toNat < a.toNat then false
    else lexLe as bs

/-- Python string comparison `a <= b` as a proposition. -/
def strLe (a b : String) : Prop := lexLe a.data b.data = true

instance : DecidableRel strLe := fun _ _ => inferInstanceAs (Decidable (_ = true))

/-- Python `sorted` on a list of strings: a stable sort by `strLe`. -/
def pySorted (l : List String) : List String := List.insertionSort strLe l

/-- Accumulator pass of `uniqueFirst`: keep each value not seen before. -/
def uniqueFirstAux (seen : List String) : List String → List String
  | [] => []
  | x :: xs =>
    if x ∈ seen then uniqueFirstAux seen xs
    else x :: uniqueFirstAux (x :: seen) xs

/-- Model of `Series.unique()`: distinct values in first-occurrence order. -/
def uniqueFirst (l : List String) : List String := uniqueFirstAux [] l

/-- The `df['Municipio'].dropna().unique()` step (app.py line 161). -/
def municipiosOf (df : List Row) : List String :=
  uniqueFirst (df.filterMap (fun r => r.municipio))

/-- Model of `gerar_xlsx_por_municipio` (app.py lines 145-223): for each
distinct municipality in Python `sorted` order, one archive entry named
`<municipio>.xlsx` holding the workbook built from that municipality's rows
(its info sheet titled with the municipality name, line 207). -/
def gerar_xlsx_por_municipio (logFile : Option String) (now : Clock)
    (df : List Row) (filtros : List String) : List (String × Workbook) :=
  (pySorted (municipiosOf df)).map
    (fun m =>
      (m ++ ".xlsx",
       buildWorkbook ("Relatório SIGE - " ++ m) logFile now
         (df.filter (fun r => r.municipio = some m)) filtros))

/-! ### Helper lemmas about whitespace stripping and scanning -/

theorem dropWhile_eq_self_of_not {p : Char → Bool} {l : List Char}
    (h : ∀ c ∈ l, p c = false) : l.dropWhile p = l := by
  cases l with
  | nil => rfl
  | cons c cs => simp [List.dropWhile_cons, h c (by simp)]

theorem mem_dropWhile_of_not {p : Char → Bool} {c : Char} {l : List Char}
    (hm : c ∈ l) (hc : p c = false) : c ∈ l.dropWhile p := by
  induction l with
  | nil => cases hm
  | cons a as ih =>
    rcases List.mem_cons.mp hm with rfl | hmem
    · rw [List.dropWhile_cons, hc]; simp
    · by_cases hpa : p a
      · rw [List.dropWhile_cons, if_pos hpa]; exact ih hmem
      · rw [List.dropWhile_cons, if_neg hpa]; exact List.mem_cons_of_mem _ hmem

theorem mem_of_mem_dropWhile {p : Char → Bool} {c : Char} {l : List Char}
    (hm : c ∈ l.dropWhile p) : c ∈ l := by
  induction l with
  | nil => cases hm
  | cons a as ih =>
    by_cases hpa : p a
    · rw [List.dropWhile_cons, if_pos hpa] at hm
      exact List.mem_cons_of_mem _ (ih hm)
    · rw [List.dropWhile_cons, if_neg hpa] at hm
      exact hm

theorem stripWith_eq_self_of_not {w : Char → Bool} {l : List Char}
    (h : ∀ c ∈ l, w c = false) : stripWith w l = l := by
  unfold stripWith
  rw [dropWhile_eq_self_of_not h]
  rw [dropWhile_eq_self_of_not (by intro c hc; exact h c (List.mem_reverse.mp hc))]
  exact List.reverse_reverse l

theorem mem_stripWith_of_not {w : Char → Bool} {c : Char} {l : List Char}
    (hm : c ∈ l) (hc : w c = false) : c ∈ stripWith w l := by
  unfold stripWith
  rw [List.mem_reverse]
  exact mem_dropWhile_of_not (List.mem_reverse.mpr (mem_dropWhile_of_not hm hc)) hc

theorem mem_of_mem_stripWith {w : Char → Bool} {c : Char} {l : List Char}
    (hm : c ∈ stripWith w l) : c ∈ l := by
  unfold stripWith at hm
  rw [List.mem_reverse] at hm
  exact mem_of_mem_dropWhile (List.mem_reverse.mp (mem_of_mem_dropWhile hm))

theorem stripWith_decomp (w : Char → Bool) (l : List Char) :
    ∃ a b, l = a ++ stripWith w l ++ b ∧
      (∀ c ∈ a, w c = true) ∧ (∀ c ∈ b, w c = true) := by
  refine ⟨l.takeWhile w,
    ((l.dropWhile w).reverse.takeWhile w).reverse, Eq.symm ?_, ?_, ?_⟩
  · rw [List.append_assoc]
    have h2 := congrArg List.reverse
      (List.takeWhile_append_dropWhile (p := w) (l := (l.dropWhile w).reverse))
    rw [List.reverse_append, List.reverse_reverse] at h2
    rw [show stripWith w l = ((l.dropWhile w).reverse.dropWhile w).reverse from rfl, h2]
    exact List.takeWhile_append_dropWhile w l
  · intro c hc; exact List.mem_takeWhile_imp hc
  · intro c hc
    exact List.mem_takeWhile_imp (List.mem_reverse.mp hc)

theorem stripNum_eq_self_of_not {l : List Char}
    (h : ∀ c ∈ l, isWsChar c = false) : stripNum l = l :=
  stripWith_eq_self_of_not h

theorem mem_stripNum_of_not {c : Char} {l : List Char}
    (hm : c ∈ l) (hc : isWsChar c = false) : c ∈ stripNum l :=
  mem_stripWith_of_not hm hc

theorem mem_stripList_of_not {c : Char} {l : List Char}
    (hm : c ∈ l) (hc : pyWsChar c = false) : c ∈ stripList l :=
  mem_stripWith_of_not hm hc

theorem mem_of_mem_stripList {c : Char} {l : List Char}
    (hm : c ∈ stripList l) : c ∈ l :=
  mem_of_mem_stripWith hm

theorem stripList_decomp (l : List Char) :
    ∃ a b, l = a ++ stripList l ++ b ∧
      (∀ c ∈ a, pyWsChar c = true) ∧ (∀ c ∈ b, pyWsChar c = true) :=
  stripWith_decomp pyWsChar l

/-! ### Digit-string lemmas for the Numeric Normalizer -/

theorem isDigitCh_iff {c : Char} : isDigitCh c = true ↔ 48 ≤ c.toNat ∧ c.toNat ≤ 57 := by
  simp [isDigitCh, Bool.and_eq_true, decide_eq_true_eq]

theorem ws_false_of_digit {c : Char} (h : isDigitCh c = true) : isWsChar c = false := by
  rw [isDigitCh_iff] at h
  simp only [isWsChar, Bool.or_eq_false_iff, decide_eq_false_iff_not]
  omega

theorem lowerAscii_eq_self_of_digit {c : Char} (h : isDigitCh c = true) :
    lowerAscii c = c := by
  rw [isDigitCh_iff] at h
  unfold lowerAscii
  rw [if_neg]
  omega

/-- Decimal digit characters of `n`, most significant first (the spec-side
`format_with_dots` uses these; `Nat.digits` lists least-significant first). -/
def digitChars (n : Nat) : List Char :=
  if n = 0 then ['0'] else ((Nat.digits 10 n).map Nat.digitChar).reverse

/-- Insert a '.' before every third character of a least-significant-first
digit list (positions 3, 6, ... counted from the start of the reversed
list): the thousands-separator layout, built right-to-left. -/
def sepRev : Nat → List Char → List Char
  | _, [] => []
  | i, c :: cs =>
    if i % 3 = 0 ∧ i ≠ 0 then '.' :: c :: sepRev (i + 1) cs
    else c :: sepRev (i + 1) cs

/-- Spec-side formatter: the decimal notation of `n` with '.' thousands
separators, e.g. 1200 ↦ "1.200" (the inverse image the spec's round-trip
property quantifies over). -/
def format_with_dots (n : Nat) : String :=
  String.mk (sepRev 0 (digitChars n).reverse).reverse

theorem digitChar_toNat {d : Nat} (h : d < 10) : (Nat.digitChar d).toNat = 48 + d := by
  interval_cases d <;> rfl

theorem digitChars_digit {n : Nat} : ∀ c ∈ digitChars n, isDigitCh c = true := by
  intro c hc
  unfold digitChars at hc
  by_cases h : n = 0
  · rw [if_pos h] at hc
    simp only [List.mem_singleton] at hc
    subst hc; decide
  · rw [if_neg h, List.mem_reverse] at hc
    rcases List.mem_map.mp hc with ⟨d, hd, rfl⟩
    have hlt : d < 10 := Nat.digits_lt_base (by norm_num) hd
    rw [isDigitCh_iff, digitChar_toNat hlt]
    omega

theorem digitChars_ne_nil (n : Nat) : digitChars n ≠ [] := by
  unfold digitChars
  by_cases h : n = 0
  · rw [if_pos h]; simp
  · rw [if_neg h]
    simp only [ne_eq, List.reverse_eq_nil_iff, List.map_eq_nil_iff]
    exact Nat.digits_ne_nil_iff_ne_zero.mpr h

theorem digitsVal_reverse_map (ds : List Nat) (h : ∀ d ∈ ds, d < 10) (a : Nat) :
    ((ds.map Nat.digitChar).reverse).foldl (fun a c => 10 * a + (c.toNat - 48)) a
      = a * 10 ^ ds.length + Nat.ofDigits 10 ds := by
  induction ds generalizing a with
  | nil => simp
  | cons d ds ih =>
    simp only [List.map_cons, List.reverse_cons, List.foldl_append, List.foldl_cons,
      List.foldl_nil, List.length_cons]
    rw [ih (fun x hx => h x (List.mem_cons_of_mem _ hx)) a,
      digitChar_toNat (h d (List.mem_cons_self _ _)), Nat.add_sub_cancel_left,
      Nat.ofDigits_cons, pow_succ]
    ring

theorem digitsVal_digitChars (n : Nat) : digitsVal (digitChars n) = n := by
  unfold digitChars digitsVal
  by_cases h : n = 0
  · rw [if_pos h]; subst h; decide
  · rw [if_neg h,
      digitsVal_reverse_map _ (fun d hd => Nat.digits_lt_base (by norm_num) hd) 0]
    simp [Nat.ofDigits_digits]

theorem digit_ne_dash {c : Char} (h : isDigitCh c = true) : c ≠ '-' := by
  intro he; subst he; revert h; decide

theorem digit_ne_dot {c : Char} (h : isDigitCh c = true) : c ≠ '.' := by
  intro he; subst he; revert h; decide

theorem map_lowerAscii_digits {l : List Char} (h : ∀ c ∈ l, isDigitCh c = true) :
    l.map lowerAscii = l := by
  induction l with
  | nil => rfl
  | cons c cs ih =>
    simp only [List.map_cons]
    rw [lowerAscii_eq_self_of_digit (h c (List.mem_cons_self _ _)),
      ih (fun x hx => h x (List.mem_cons_of_mem _ hx))]

theorem takeWhile_eq_self_of_all {p : Char → Bool} {l : List Char}
    (h : ∀ c ∈ l, p c = true) : l.takeWhile p = l := by
  induction l with
  | nil => rfl
  | cons c cs ih =>
    rw [List.takeWhile_cons, if_pos (h c (List.mem_cons_self _ _)),
      ih (fun x hx => h x (List.mem_cons_of_mem _ hx))]

theorem dropWhile_eq_nil_of_all {p : Char → Bool} {l : List Char}
    (h : ∀ c ∈ l, p c = true) : l.dropWhile p = [] := by
  induction l with
  | nil => rfl
  | cons c cs ih =>
    rw [List.dropWhile_cons, if_pos (h c (List.mem_cons_self _ _))]
    exact ih (fun x hx => h x (List.mem_cons_of_mem _ hx))

theorem splitSign_digits {c : Char} {r : List Char} (h : isDigitCh c = true) :
    splitSign (c :: r) = (false, c :: r) := by
  show (if c = '+' then (false, r) else if c = '-' then (true, r) else (false, c :: r))
      = (false, c :: r)
  rw [if_neg (fun he => by subst he; revert h; decide),
    if_neg (fun he => by subst he; revert h; decide)]

theorem parseMag_digits {ds : List Char} (hne : ds ≠ [])
    (h : ∀ c ∈ ds, isDigitCh c = true) : parseMag ds = some (digitsVal ds) := by
  unfold parseMag
  simp only [takeWhile_eq_self_of_all h, dropWhile_eq_nil_of_all h]
  rw [if_neg hne]
  simp

theorem toNumeric_digits {ds : List Char} (hne : ds ≠ [])
    (h : ∀ c ∈ ds, isDigitCh c = true) : toNumeric ds = .valR (digitsVal ds) := by
  have hstrip : stripNum ds = ds :=
    stripNum_eq_self_of_not (fun c hc => ws_false_of_digit (h c hc))
  have hmap : ds.map lowerAscii = ds := map_lowerAscii_digits h
  obtain ⟨c, cs, rfl⟩ : ∃ c cs, ds = c :: cs := by
    cases ds with
    | nil => exact absurd rfl hne
    | cons c cs => exact ⟨c, cs, rfl⟩
  have hsplit : splitSign (c :: cs) = (false, c :: cs) :=
    splitSign_digits (h c (List.mem_cons_self _ _))
  have hnan : c :: cs ≠ ['n', 'a', 'n'] := by
    intro he
    rw [he] at h
    exact absurd (h 'n' (List.mem_cons_self _ _)) (by decide)
  have hinf : ¬(c :: cs = ['i', 'n', 'f'] ∨
      c :: cs = ['i', 'n', 'f', 'i', 'n', 'i', 't', 'y']) := by
    rintro (he | he) <;> rw [he] at h
    · exact absurd (h 'i' (List.mem_cons_self _ _)) (by decide)
    · exact absurd (h 'i' (List.mem_cons_self _ _)) (by decide)
  unfold toNumeric
  simp only [hstrip, hsplit, hmap]
  rw [if_neg hnan, if_neg hinf, parseMag_digits (List.cons_ne_nil c cs) h]
  simp

theorem sepRev_filter {xs : List Char} (h : ∀ c ∈ xs, c ≠ '.') :
    ∀ i, (sepRev i xs).filter (fun c => c != '.') = xs := by
  induction xs with
  | nil => intro i; rfl
  | cons c cs ih =>
    intro i
    have hc : (c != '.') = true := bne_iff_ne.mpr (h c (List.mem_cons_self _ _))
    have ih2 := ih (fun x hx => h x (List.mem_cons_of_mem _ hx)) (i + 1)
    unfold sepRev
    by_cases hi : i % 3 = 0 ∧ i ≠ 0
    · rw [if_pos hi]
      simp only [List.filter_cons, hc, bne_self_eq_false, ih2]
      simp
    · rw [if_neg hi]
      simp only [List.filter_cons, hc, ih2]
      simp

theorem removeDots_format (n : Nat) :
    removeDots (format_with_dots n).data = digitChars n := by
  have hnd : ∀ c ∈ (digitChars n).reverse, c ≠ '.' :=
    fun c hc => digit_ne_dot (digitChars_digit c (List.mem_reverse.mp hc))
  show ((sepRev 0 (digitChars n).reverse).reverse).filter (fun c => c != '.') = digitChars n
  rw [List.filter_reverse, sepRev_filter hnd 0, List.reverse_reverse]

theorem removeDots_eq_self {l : List Char} (h : ∀ c ∈ l, c ≠ '.') :
    removeDots l = l := by
  induction l with
  | nil => rfl
  | cons c cs ih =>
    show List.filter _ (c :: cs) = c :: cs
    rw [List.filter_cons]
    simp only [bne_iff_ne.mpr (h c (List.mem_cons_self _ _)), if_true]
    show c :: removeDots cs = c :: cs
    rw [ih (fun x hx => h x (List.mem_cons_of_mem _ hx))]

theorem dashToZero_eq_self {l : List Char} (h : ∀ c ∈ l, c ≠ '-') :
    dashToZero l = l := by
  induction l with
  | nil => rfl
  | cons c cs ih =>
    show List.map _ (c :: cs) = c :: cs
    rw [List.map_cons, if_neg (h c (List.mem_cons_self _ _))]
    show c :: dashToZero cs = c :: cs
    rw [ih (fun x hx => h x (List.mem_cons_of_mem _ hx))]

/-- Helper for the C2 counterexample: on a dot-formatted integer, the
program-side pipeline with the uint64-range `astype(int)` wrap yields the
int64 cast of the formatted value (faithful whenever `n` is below 2^64, the
uint64 path; below 2^63 the cast is the identity). -/
theorem normalizeCell64_format (n : Nat) :
    normalizeCell64 (some (format_with_dots n)) = astype_int64 n := by
  unfold normalizeCell64
  rw [show cellStr (some (format_with_dots n)) = (format_with_dots n).data from rfl,
    removeDots_format n,
    dashToZero_eq_self (fun c hc => digit_ne_dash (digitChars_digit c hc)),
    toNumeric_digits (digitChars_ne_nil n) digitChars_digit,
    digitsVal_digitChars]

/-- Counterexample to claim C2 as stated.  First, the round-trip fails beyond
int64: at n = 10^19 - 1 (inside uint64 range) the parsed value is wrapped by
`astype(int)` to -8446744073709551617, not n.  Second, "it never raises on
any input" fails: a cell spelling an infinity parses to `infR`, on which the
program's `astype(int)` raises — modelled by the loader turning the row into
the no-data result instead of a table. -/
theorem c2_counterexample :
    normalizeCell64 (some (format_with_dots (10 ^ 19 - 1))) = -8446744073709551617 ∧
    normalizeCell64 (some (format_with_dots (10 ^ 19 - 1))) ≠ ((10 ^ 19 - 1 : Nat) : Int) ∧
    toNumeric (dashToZero (removeDots (cellStr (some "inf")))) = .infR ∧
    carregar_csv (.parsed
        [⟨none, none, none, some "inf", none, none, none, none, none, none⟩]) = none := by
  refine ⟨?_, ?_, by decide, by decide⟩
  · rw [normalizeCell64_format]
    decide
  · rw [normalizeCell64_format]
    decide

/-- C2 amended: the Numeric Normalizer maps "1.234" to 1234 and the dash
sentinel, a missing value and the empty string to 0; it is a left inverse of
dot-separated formatting on every nonnegative integer below 2^63 (the int64
range, beyond which the program's uint64/float64 casts corrupt the value);
and it never raises on inputs whose parse outcome is finite or NaN —
unparseable and missing values coerce to 0 — while a cell parsing to an
infinity instead makes `astype(int)` raise, contained only by the loader's
exception handler. -/
theorem c2_amended_normalizer :
    normalizeCell (some "1.234") = 1234 ∧ normalizeCell (some "-") = 0 ∧
    normalizeCell none = 0 ∧ normalizeCell (some "") = 0 ∧
    (∀ n : Nat, n < 2 ^ 63 → normalizeCell (some (format_with_dots n)) = (n : Int)) ∧
    (∀ v : Option String,
      toNumeric (dashToZero (removeDots (cellStr v))) = .nanR → normalizeCell v = 0) ∧
    toNumeric (dashToZero (removeDots (cellStr (some "inf")))) = .infR := by
  refine ⟨by decide, by decide, by decide, by decide, fun n _hn => ?_,
    fun v hv => ?_, by decide⟩
  · unfold normalizeCell
    rw [show cellStr (some (format_with_dots n)) = (format_with_dots n).data from rfl,
      removeDots_format n,
      dashToZero_eq_self (fun c hc => digit_ne_dash (digitChars_digit c hc)),
      toNumeric_digits (digitChars_ne_nil n) digitChars_digit,
      digitsVal_digitChars]
  · unfold normalizeCell
    rw [hv]

/-- Witness for the amended C2: the round-trip at the concrete value 1200 and
the coerce-to-zero rule at the concrete cell "xyz". -/
theorem c2_amended_witness :
    normalizeCell (some (format_with_dots 1200)) = 1200 ∧
    normalizeCell (some "xyz") = 0 :=
  ⟨c2_amended_normalizer.2.2.2.2.1 1200 (by norm_num),
   c2_amended_normalizer.2.2.2.2.2.1 (some "xyz") (by decide)⟩

/-- C10 amended: the normalization replaces every '-' character (not only
the bare sentinel cell "-"): on any string made of digits and dashes whose
dash-as-0 reading lies below 2^63, it returns that number exactly (beyond
int64 range the program's `astype(int)` cast wraps the value instead, see
the counterexample); in particular "1-2" normalizes to 102. -/
theorem c10_amended_dash_digits :
    (∀ s : String, (∀ c ∈ s.data, isDigitCh c = true ∨ c = '-') →
      digitsVal (s.data.map (fun c => if c = '-' then '0' else c)) < 2 ^ 63 →
      normalizeCell (some s) =
        (digitsVal (s.data.map (fun c => if c = '-' then '0' else c)) : Int)) ∧
    normalizeCell (some "1-2") = 102 := by
  constructor
  · intro s h _hbound
    have hnodot : removeDots s.data = s.data := by
      refine removeDots_eq_self (fun c hc => ?_)
      rcases h c hc with hd | rfl
      · exact digit_ne_dot hd
      · decide
    have hdig : ∀ c ∈ dashToZero s.data, isDigitCh c = true := by
      intro c hc
      rcases List.mem_map.mp hc with ⟨x, hx, rfl⟩
      rcases h x hx with hd | rfl
      · rw [if_neg (digit_ne_dash hd)]; exact hd
      · rw [if_pos rfl]; decide
    rcases hd : s.data with _ | ⟨c, cs⟩
    · unfold normalizeCell
      rw [show cellStr (some s) = s.data from rfl, hd]
      decide
    · have hne : dashToZero s.data ≠ [] := by
        rw [hd]; exact fun hcon => by cases hcon
      unfold normalizeCell
      rw [show cellStr (some s) = s.data from rfl, hnodot,
        toNumeric_digits hne hdig, hd]
      rfl
  · decide

/-! ### Characters the numeric parse can still give meaning to (claim C5) -/

theorem mem_splitSign {a : Char} {r : List Char} {c : Char} (hc : c ∈ a :: r) :
    c ∈ (splitSign (a :: r)).2 ∨ c = '+' ∨ c = '-' := by
  show c ∈ (if a = '+' then ((false, r) : Bool × List Char)
      else if a = '-' then (true, r) else (false, a :: r)).2 ∨ c = '+' ∨ c = '-'
  by_cases hp : a = '+'
  · rw [if_pos hp]
    rcases List.mem_cons.mp hc with rfl | hmr
    · exact Or.inr (Or.inl hp)
    · exact Or.inl hmr
  · rw [if_neg hp]
    by_cases hm2 : a = '-'
    · rw [if_pos hm2]
      rcases List.mem_cons.mp hc with rfl | hmr
      · exact Or.inr (Or.inr hm2)
      · exact Or.inl hmr
    · rw [if_neg hm2]
      exact Or.inl hc

theorem parseExp_some_chars {m k : Nat} {l : List Char} (h : parseExp m l = some k) :
    ∀ c ∈ l, isDigitCh c = true ∨ c = '+' ∨ c = '-' := by
  intro c hc
  unfold parseExp at h
  by_cases hcond : (splitSign l).2 ≠ [] ∧ (splitSign l).2.all isDigitCh
  · cases l with
    | nil => cases hc
    | cons a r =>
      rcases mem_splitSign hc with hmr | hpm | hpm
      · exact Or.inl (List.all_eq_true.mp hcond.2 c hmr)
      · exact Or.inr (Or.inl hpm)
      · exact Or.inr (Or.inr hpm)
  · rw [if_neg hcond] at h
    cases h

theorem parseMag_some_chars {l : List Char} {m : Nat} (h : parseMag l = some m) :
    ∀ c ∈ l, isDigitCh c = true ∨ c = 'e' ∨ c = 'E' ∨ c = '+' ∨ c = '-' := by
  intro c hc
  unfold parseMag at h
  by_cases hds : l.takeWhile isDigitCh = []
  · rw [if_pos hds] at h; cases h
  · rw [if_neg hds] at h
    by_cases hrest : l.dropWhile isDigitCh = []
    · left
      have hdec := List.takeWhile_append_dropWhile isDigitCh l
      rw [hrest, List.append_nil] at hdec
      exact List.mem_takeWhile_imp (hdec ▸ hc)
    · rw [if_neg hrest] at h
      by_cases hhead : (l.dropWhile isDigitCh).head? = some 'e' ∨
          (l.dropWhile isDigitCh).head? = some 'E'
      · rw [if_pos hhead] at h
        have hdec := List.takeWhile_append_dropWhile isDigitCh l
        rw [← hdec] at hc
        rcases List.mem_append.mp hc with hm | hm
        · exact Or.inl (List.mem_takeWhile_imp hm)
        · obtain ⟨ch, tl, hrw⟩ : ∃ ch tl, l.dropWhile isDigitCh = ch :: tl := by
            cases hx : l.dropWhile isDigitCh with
            | nil => exact absurd hx hrest
            | cons ch tl => exact ⟨ch, tl, rfl⟩
          rw [hrw] at hm hhead h
          simp only [List.head?_cons, Option.some_inj] at hhead
          rcases List.mem_cons.mp hm with rfl | hmtl
          · rcases hhead with rfl | rfl
            · exact Or.inr (Or.inl rfl)
            · exact Or.inr (Or.inr (Or.inl rfl))
          · rcases parseExp_some_chars h c hmtl with hx | hx | hx
            · exact Or.inl hx
            · exact Or.inr (Or.inr (Or.inr (Or.inl hx)))
            · exact Or.inr (Or.inr (Or.inr (Or.inr hx)))
      · rw [if_neg hhead] at h
        cases h

/-- Characters the normalization pipeline can still interpret as (part of) a
number: digits, the rewritten '.' and '-', an explicit '+' sign, the exponent
markers, whitespace, and letters of the words nan / inf / infinity in either
case.  A cell containing any character outside this set cannot parse. -/
def numMeaningful (c : Char) : Bool :=
  isDigitCh c || c = '.' || c = '-' || c = '+' || c = 'e' || c = 'E' || isWsChar c ||
  lowerAscii c = 'n' || lowerAscii c = 'a' || lowerAscii c = 'f' ||
  lowerAscii c = 'i' || lowerAscii c = 't' || lowerAscii c = 'y'

theorem toNumeric_nanR_of_bad {l : List Char} {c : Char} (hm : c ∈ l)
    (hbad : numMeaningful c = false) : toNumeric l = .nanR := by
  simp only [numMeaningful, Bool.or_eq_false_iff, decide_eq_false_iff_not] at hbad
  obtain ⟨⟨⟨⟨⟨⟨⟨⟨⟨⟨⟨⟨h1, h2⟩, h3⟩, h4⟩, h5⟩, h6⟩, h7⟩, h8⟩, h9⟩, h10⟩, h11⟩, h12⟩, h13⟩ := hbad
  have hms : c ∈ stripNum l := mem_stripNum_of_not hm h7
  have hnan : ¬(stripNum l).map lowerAscii = ['n', 'a', 'n'] := by
    intro he
    have hx : lowerAscii c ∈ ['n', 'a', 'n'] := by
      rw [← he]; exact List.mem_map_of_mem lowerAscii hms
    simp only [List.mem_cons, List.not_mem_nil, or_false] at hx
    rcases hx with hx | hx | hx
    · exact h8 hx
    · exact h9 hx
    · exact h8 hx
  have hsb : c ∈ (splitSign (stripNum l)).2 := by
    cases hsl : stripNum l with
    | nil => rw [hsl] at hms; cases hms
    | cons a r =>
      rw [hsl] at hms
      rcases mem_splitSign hms with hx | hx | hx
      · exact hx
      · exact absurd hx h4
      · exact absurd hx h3
  have hinf : ¬((splitSign (stripNum l)).2.map lowerAscii = ['i', 'n', 'f'] ∨
      (splitSign (stripNum l)).2.map lowerAscii = ['i', 'n', 'f', 'i', 'n', 'i', 't', 'y']) := by
    have hx0 := List.mem_map_of_mem lowerAscii hsb
    rintro (he | he) <;> rw [he] at hx0 <;>
      simp only [List.mem_cons, List.not_mem_nil, or_false] at hx0
    · rcases hx0 with hx | hx | hx
      · exact h11 hx
      · exact h8 hx
      · exact h10 hx
    · rcases hx0 with hx | hx | hx | hx | hx | hx | hx | hx
      · exact h11 hx
      · exact h8 hx
      · exact h10 hx
      · exact h11 hx
      · exact h8 hx
      · exact h11 hx
      · exact h12 hx
      · exact h13 hx
  unfold toNumeric
  rw [if_neg hnan, if_neg hinf]
  cases hpm : parseMag (splitSign (stripNum l)).2 with
  | none => rfl
  | some m =>
    exfalso
    rcases parseMag_some_chars hpm c hsb with hx | hx | hx | hx | hx
    · rw [hx] at h1; cases h1
    · exact h5 hx
    · exact h6 hx
    · exact h4 hx
    · exact h3 hx

/-- Counterexample to claim C5 as stated: the cell "1.2-" contains the '.'
separator together with a non-digit character other than '.' (the dash), yet
the Numeric Normalizer returns 120, not 0 — the dash is rewritten to a digit
rather than poisoning the parse. -/
theorem c5_counterexample :
    normalizeCell (some "1.2-") = 120 ∧ normalizeCell (some "1.2-") ≠ 0 ∧
    '.' ∈ "1.2-".data ∧ '-' ∈ "1.2-".data ∧ isDigitCh '-' = false ∧ '-' ≠ '.' := by
  decide

/-- C5 amended: a raw cell whose string form contains a '.' separator
degrades to 0 provided it also contains a character the pipeline cannot give
numeric meaning to, i.e. one outside digits, '.', '-', '+', the exponent
markers e/E, whitespace, and the letters of nan/inf/infinity (either case).
Characters inside that set may instead be interpreted (the dash becomes a
digit 0, e/E an exponent), as the counterexample shows. -/
theorem c5_amended_degrade_zero :
    ∀ s : String, '.' ∈ s.data →
      (∃ c ∈ s.data, numMeaningful c = false) →
      normalizeCell (some s) = 0 := by
  rintro s _hdot ⟨c, hm, hbad⟩
  have h2 : c ≠ '.' := by
    intro he
    subst he
    revert hbad
    decide
  have h3 : c ≠ '-' := by
    intro he
    subst he
    revert hbad
    decide
  have hm1 : c ∈ removeDots s.data :=
    List.mem_filter.mpr ⟨hm, bne_iff_ne.mpr h2⟩
  have hm2 : c ∈ dashToZero (removeDots s.data) := by
    refine List.mem_map.mpr ⟨c, hm1, ?_⟩
    rw [if_neg h3]
  unfold normalizeCell
  rw [show cellStr (some s) = s.data from rfl,
    toNumeric_nanR_of_bad hm2 hbad]

/-- Witness for the amended C5 at the concrete cell "1.2x". -/
theorem c5_amended_witness : normalizeCell (some "1.2x") = 0 :=
  c5_amended_degrade_zero "1.2x" (by decide) ⟨'x', by decide, by decide⟩

/-- Counterexample to claim C10 as stated: the digit-dash string of eighteen
nines followed by a dash reads (dash as 0) as 9999999999999999990, which is
above int64 max but within uint64 range, so the program's `astype(int)`
wraps it to -8446744073709551626 rather than returning the exact number. -/
theorem c10_counterexample :
    (∀ c ∈ "999999999999999999-".data, isDigitCh c = true ∨ c = '-') ∧
    normalizeCell64 (some "999999999999999999-") = -8446744073709551626 ∧
    normalizeCell64 (some "999999999999999999-") ≠
      (digitsVal ("999999999999999999-".data.map
        (fun c => if c = '-' then '0' else c)) : Int) := by
  decide

/-- Witness companion for the amended C10: evaluating the universally
quantified part of `c10_amended_dash_digits` at the concrete digit-dash
string "1-2", whose value 102 is within the int64 bound. -/
theorem c10_amended_witness : normalizeCell (some "1-2") =
    (digitsVal ("1-2".data.map (fun c => if c = '-' then '0' else c)) : Int) :=
  c10_amended_dash_digits.1 "1-2" (by decide) (by decide)

/-! ### Claim C4 — the TOTAL SECRETARIA comparison -/

/-- Counterexample to claim C4 as stated: the pipe-less text
" TOTAL SECRETARIA" (leading space) is not equal to the literal
"TOTAL SECRETARIA", yet the extractor returns "TOTAL SECRETARIA", because
the code strips the text (app.py line 66) before the comparison of line 72. -/
theorem c4_counterexample :
    extrair_etapa (some " TOTAL SECRETARIA") = "TOTAL SECRETARIA" ∧
    (" TOTAL SECRETARIA" : String) ≠ "TOTAL SECRETARIA" ∧
    '|' ∉ " TOTAL SECRETARIA".data := by
  decide

/-- C4 amended: for pipe-less text the extractor returns "TOTAL SECRETARIA"
exactly when the *stripped* text equals that literal (the comparison happens
after trimming), and returns "Total escola" for every other pipe-less text. -/
theorem c4_amended_total_secretaria :
    ∀ t : String, '|' ∉ t.data →
      ((extrair_etapa (some t) = "TOTAL SECRETARIA" ↔
        stripList t.data = "TOTAL SECRETARIA".data) ∧
       (stripList t.data ≠ "TOTAL SECRETARIA".data →
        extrair_etapa (some t) = "Total escola")) := by
  intro t h
  have hnp : '|' ∉ stripList t.data := fun hx => h (mem_of_mem_stripList hx)
  have hrw : extrair_etapa (some t) =
      if stripList t.data = "TOTAL SECRETARIA".data then "TOTAL SECRETARIA"
      else "Total escola" := by
    show (if '|' ∈ stripList t.data then
        match afterLastAux sepDash (stripList ((stripList t.data).takeWhile notPipe)) with
        | some seg => String.mk (stripList seg)
        | none => String.mk (stripList ((stripList t.data).takeWhile notPipe))
      else if stripList t.data = "TOTAL SECRETARIA".data then "TOTAL SECRETARIA"
      else "Total escola")
      = if stripList t.data = "TOTAL SECRETARIA".data then "TOTAL SECRETARIA"
        else "Total escola"
    rw [if_neg hnp]
  rw [hrw]
  by_cases hts : stripList t.data = "TOTAL SECRETARIA".data
  · rw [if_pos hts]
    exact ⟨⟨fun _ => hts, fun _ => rfl⟩, fun hne => absurd hts hne⟩
  · rw [if_neg hts]
    exact ⟨⟨fun he => absurd he (by decide), fun hcon => absurd hcon hts⟩, fun _ => rfl⟩

/-- Witness for the amended C4 at the concrete text " TOTAL SECRETARIA". -/
theorem c4_amended_witness :
    (extrair_etapa (some " TOTAL SECRETARIA") = "TOTAL SECRETARIA" ↔
      stripList " TOTAL SECRETARIA".data = "TOTAL SECRETARIA".data) ∧
    (stripList " TOTAL SECRETARIA".data ≠ "TOTAL SECRETARIA".data →
      extrair_etapa (some " TOTAL SECRETARIA") = "Total escola") :=
  c4_amended_total_secretaria " TOTAL SECRETARIA" (by decide)

/-! ### Claim C6 — Filter Engine identity -/

/-- C6: applying the empty selection (sentinel municipality, empty stage set,
empty status set) returns the table unchanged — same rows, same order — and
each individually emptied constraint is skipped rather than matching
nothing: with the sentinel municipality only the stage/status tests remain,
with an empty stage list only the municipality/status tests remain, and with
an empty status list only the municipality/stage tests remain. -/
theorem c6_filter_identity :
    (∀ df : List Row, filtrar ⟨"Todos os Municípios", [], []⟩ df = df) ∧
    (∀ (df : List Row) (et st : List String),
      filtrar ⟨"Todos os Municípios", et, st⟩ df =
        df.filter (fun r => (if et.isEmpty then true else et.contains r.etapa)
          && (if st.isEmpty then true else optIsin r.status st))) ∧
    (∀ (df : List Row) (mu : String) (st : List String),
      filtrar ⟨mu, [], st⟩ df =
        df.filter (fun r =>
          (if mu = "Todos os Municípios" then true else r.municipio = some mu)
          && (if st.isEmpty then true else optIsin r.status st))) ∧
    (∀ (df : List Row) (mu : String) (et : List String),
      filtrar ⟨mu, et, []⟩ df =
        df.filter (fun r =>
          (if mu = "Todos os Municípios" then true else r.municipio = some mu)
          && (if et.isEmpty then true else et.contains r.etapa))) := by
  refine ⟨fun df => ?_, fun df et st => ?_, fun df mu st => ?_, fun df mu et => ?_⟩
  · simp [filtrar, rowMask]
  · refine List.filter_congr (fun r _ => ?_)
    simp [rowMask]
  · refine List.filter_congr (fun r _ => ?_)
    simp [rowMask]
  · refine List.filter_congr (fun r _ => ?_)
    simp [rowMask]

/-! ### Claim C1 — end-to-end scenario for the row "A - 3º Ano" -/

/-- The C1 scenario's record as it reaches the normalization loop.  The raw
CSV row is `Secretaria=X;Municipio=Y;Descricao=A - 3º Ano;Mat. Total=1.200;
Não Enturmados=-;Enturmados=1200;Quantidade de Turmas=1;Mat. Presencial=1200;
Mat. Semipresencial=0;Status=Normal`.  In this single-row file `pd.read_csv`
type-infers the all-parseable `Mat. Total` column ["1.200"] as float64, so
the cell reaches line 56 as the `astype(str)` rendering "1.2"; the
`Não Enturmados` column ["-"] fails numeric inference and stays object, so
its cell arrives as the text "-"; the remaining measure columns are
integer-valued and render back to their own digits. -/
def c1Raw : RawRow :=
  ⟨some "X", some "Y", some "A - 3º Ano", some "1.2", some "-", some "1200",
   some "1", some "1200", some "0", some "Normal"⟩

/-- The C1 row after loading and stage derivation, as `main` builds it. -/
def c1Row : Row := addEtapa (normalizeRawRow c1Raw)

/-- Counterexample to claim C1 as stated, on two counts.  First,
`"A - 3º Ano"` contains no pipe, so `extrair_etapa` falls through to the
school-total branch and yields "Total escola", not "3º Ano", and the Etapa
filter {"3º Ano"} drops the row instead of keeping it.  Second, the loaded
`Mat. Total` is 12, not 1200: the scenario's single-row column ["1.200"] is
type-inferred as the float 1.2, whose rendering "1.2" loses the thousands
grouping before the dot-stripping of line 56. -/
theorem c1_counterexample :
    c1Row.etapa = "Total escola" ∧ c1Row.etapa ≠ "3º Ano" ∧
    filtrar ⟨"Todos os Municípios", ["3º Ano"], []⟩ [c1Row] = [] ∧
    c1Row.matTotal = 12 ∧ c1Row.matTotal ≠ 1200 := by
  decide

/-- C1 amended: the row loads with `Mat. Total = 12` (read_csv type-infers
the scenario's single-row column ["1.200"] as the float 1.2, which line 56
strips to "12") and `Não Enturmados = 0`; its derived stage is
"Total escola" (the dash pattern is only consulted in texts containing a
pipe); the Etapa filter {"Total escola"} keeps the row, and the filters
{"3º Ano"} and {"Creche"} both drop it. -/
theorem c1_amended_end_to_end :
    c1Row.matTotal = 12 ∧ c1Row.naoEnturmados = 0 ∧
    c1Row.etapa = "Total escola" ∧
    filtrar ⟨"Todos os Municípios", ["Total escola"], []⟩ [c1Row] = [c1Row] ∧
    filtrar ⟨"Todos os Municípios", ["3º Ano"], []⟩ [c1Row] = [] ∧
    filtrar ⟨"Todos os Municípios", ["Creche"], []⟩ [c1Row] = [] := by
  decide

/-! ### Claim C7 — Table Loader degradation and the infinity exception -/

theorem rowHasInf_eq_false_of_finite {r : RawRow} (h : rowFinite r = true) :
    rowHasInf r = false := by
  cases hh : rowHasInf r with
  | false => rfl
  | true =>
    exfalso
    rcases List.any_eq_true.mp hh with ⟨v, hv, hvi⟩
    have hvi2 := of_decide_eq_true hvi
    have hcf := List.all_eq_true.mp h v hv
    unfold cellFinite at hcf
    rw [hvi2] at hcf
    exact Bool.noConfusion hcf

/-- Counterexample to claim C7 as stated: a parseable one-row file whose
`Mat. Total` cell is unparseable ("abc") but whose `Não Enturmados` cell
spells an infinity does not load as a table at all — `astype(int)` raises on
the non-finite value and the `except` returns the no-data result, refuting
"for a parseable file with an unparseable measure column it returns a table
where that column is all zeros". -/
theorem c7_counterexample :
    toNumeric (dashToZero (removeDots (cellStr (some "abc")))) = .nanR ∧
    carregar_csv (.parsed
        [⟨none, none, none, some "abc", some "inf", none, none, none, none, none⟩]) =
      none := by
  decide

/-- C7 amended: the Table Loader never raises to its caller (it is total
into an `Option`): a missing path yields the no-data result; a parse
exception yields the no-data result; a parseable file whose measure cells
all parse to NaN or to finite values within int64 range (the fragment where
the numeric pipeline is exactly modelled) and whose `Mat. Total` cells are
all unparseable still loads, with that column all zeros; and a file
containing a cell that parses to an infinity is resolved to the no-data
result by the exception handler — degraded, never an exception. -/
theorem c7_amended_loader :
    carregar_csv .missing = none ∧
    carregar_csv .parseError = none ∧
    (∀ rows : List RawRow,
      (∀ r ∈ rows, rowFinite r = true) →
      (∀ r ∈ rows, toNumeric (dashToZero (removeDots (cellStr r.matTotal))) = .nanR) →
      ∃ t : List Row, carregar_csv (.parsed rows) = some t ∧
        ∀ x ∈ t, x.matTotal = 0) ∧
    (∀ rows : List RawRow, (∃ r ∈ rows, rowHasInf r = true) →
      carregar_csv (.parsed rows) = none) := by
  refine ⟨rfl, rfl, fun rows hfin hnan => ?_, fun rows hinf => ?_⟩
  · refine ⟨rows.map normalizeRawRow, ?_, ?_⟩
    · show (if rows.any rowHasInf then none else some (rows.map normalizeRawRow))
        = some (rows.map normalizeRawRow)
      rw [if_neg]
      intro hx
      rcases List.any_eq_true.mp hx with ⟨r, hr, hri⟩
      rw [rowHasInf_eq_false_of_finite (hfin r hr)] at hri
      cases hri
    · intro x hx
      rcases List.mem_map.mp hx with ⟨r, hr, rfl⟩
      show normalizeCell r.matTotal = 0
      unfold normalizeCell
      rw [hnan r hr]
  · show (if rows.any rowHasInf then none else some (rows.map normalizeRawRow)) = none
    rw [if_pos]
    rcases hinf with ⟨r, hr, hri⟩
    exact List.any_eq_true.mpr ⟨r, hr, hri⟩

/-- Witness for the amended C7 at a one-row file whose `Mat. Total` cell is
"abc" and every measure cell is within the finite fragment. -/
theorem c7_amended_witness :
    ∃ t : List Row,
      carregar_csv (.parsed
        [⟨none, none, none, some "abc", none, none, none, none, none, none⟩]) = some t ∧
      ∀ x ∈ t, x.matTotal = 0 :=
  c7_amended_loader.2.2.1
    [⟨none, none, none, some "abc", none, none, none, none, none, none⟩]
    (by decide) (by decide)

/-! ### Claim C9 — export purity and the wall-clock dependence -/

/-- Counterexample to claim C9 as stated: two export invocations with the
identical table (empty), identical filter list and identical extraction
timestamp, but run one minute apart, produce different workbooks — the
report-date cell embeds `datetime.now()` (app.py line 133), which is not
among the claimed inputs. -/
theorem c9_counterexample :
    gerar_xlsx none ⟨1, 1, 2025, 10, 0⟩ [] [] ≠
      gerar_xlsx none ⟨1, 1, 2025, 10, 1⟩ [] [] := by
  decide

/-- C9 amended: each export call is a pure function of (table,
filter-description list, extraction-timestamp source, generation instant);
runs that differ only in the generation instant agree on the title, the
extraction timestamp, the filter bullets, the data rows and the row fills,
and differ at most in the report-date cell, which equals the formatted
generation instant. -/
theorem c9_amended_purity :
    ∀ (log : Option String) (now now2 : Clock) (df : List Row)
      (filtros : List String),
      (gerar_xlsx log now df filtros).data = df ∧
      (gerar_xlsx log now df filtros).fills =
        df.map (fun r => statusFill r.status) ∧
      (gerar_xlsx log now df filtros).info.dataRelatorio = fmtReportDate now ∧
      (gerar_xlsx log now df filtros).info.title =
        (gerar_xlsx log now2 df filtros).info.title ∧
      (gerar_xlsx log now df filtros).info.dataExtracao =
        (gerar_xlsx log now2 df filtros).info.dataExtracao ∧
      (gerar_xlsx log now df filtros).info.filtros =
        (gerar_xlsx log now2 df filtros).info.filtros ∧
      (gerar_xlsx log now df filtros).data =
        (gerar_xlsx log now2 df filtros).data ∧
      (gerar_xlsx log now df filtros).fills =
        (gerar_xlsx log now2 df filtros).fills :=
  fun _ _ _ _ _ => ⟨rfl, rfl, rfl, rfl, rfl, rfl, rfl, rfl⟩

/-! ### Claim C8 — packager entry order -/

theorem lexLe_total (a b : List Char) : lexLe a b = true ∨ lexLe b a = true := by
  induction a generalizing b with
  | nil => left; cases b <;> rfl
  | cons x xs ih =>
    cases b with
    | nil => right; rfl
    | cons y ys =>
      rw [show lexLe (x :: xs) (y :: ys)
          = (if x.toNat < y.toNat then true
            else if y.toNat < x.toNat then false else lexLe xs ys) from rfl,
        show lexLe (y :: ys) (x :: xs)
          = (if y.toNat < x.toNat then true
            else if x.toNat < y.toNat then false else lexLe ys xs) from rfl]
      by_cases h1 : x.toNat < y.toNat
      · left; rw [if_pos h1]
      · by_cases h2 : y.toNat < x.toNat
        · right; rw [if_pos h2]
        · rcases ih ys with h | h
          · left; rw [if_neg h1, if_neg h2]; exact h
          · right; rw [if_neg h2, if_neg h1]; exact h

theorem lexLe_trans : ∀ {a b c : List Char},
    lexLe a b = true → lexLe b c = true → lexLe a c = true := by
  intro a
  induction a with
  | nil => intro b c _ _; cases c <;> rfl
  | cons x xs ih =>
    intro b c h1 h2
    cases b with
    | nil => rw [show lexLe (x :: xs) [] = false from rfl] at h1; cases h1
    | cons y ys =>
      cases c with
      | nil => rw [show lexLe (y :: ys) [] = false from rfl] at h2; cases h2
      | cons z zs =>
        rw [show lexLe (x :: xs) (y :: ys)
            = (if x.toNat < y.toNat then true
              else if y.toNat < x.toNat then false else lexLe xs ys) from rfl] at h1
        rw [show lexLe (y :: ys) (z :: zs)
            = (if y.toNat < z.toNat then true
              else if z.toNat < y.toNat then false else lexLe ys zs) from rfl] at h2
        rw [show lexLe (x :: xs) (z :: zs)
            = (if x.toNat < z.toNat then true
              else if z.toNat < x.toNat then false else lexLe xs zs) from rfl]
        by_cases hxy : x.toNat < y.toNat
        · by_cases hyz : y.toNat < z.toNat
          · rw [if_pos (show x.toNat < z.toNat by omega)]
          · by_cases hzy : z.toNat < y.toNat
            · rw [if_neg hyz, if_pos hzy] at h2; cases h2
            · rw [if_pos (show x.toNat < z.toNat by omega)]
        · by_cases hyx : y.toNat < x.toNat
          · rw [if_neg hxy, if_pos hyx] at h1; cases h1
          · rw [if_neg hxy, if_neg hyx] at h1
            by_cases hyz : y.toNat < z.toNat
            · rw [if_pos (show x.toNat < z.toNat by omega)]
            · by_cases hzy : z.toNat < y.toNat
              · rw [if_neg hyz, if_pos hzy] at h2; cases h2
              · rw [if_neg hyz, if_neg hzy] at h2
                rw [if_neg (show ¬x.toNat < z.toNat by omega),
                  if_neg (show ¬z.toNat < x.toNat by omega)]
                exact ih h1 h2

instance : IsTotal String strLe :=
  ⟨fun a b => lexLe_total a.data b.data⟩

instance : IsTrans String strLe :=
  ⟨fun _ _ _ h1 h2 => lexLe_trans h1 h2⟩

theorem mem_uniqueFirstAux {seen l : List String} {y : String} :
    y ∈ uniqueFirstAux seen l ↔ y ∈ l ∧ y ∉ seen := by
  induction l generalizing seen with
  | nil => simp [uniqueFirstAux]
  | cons x xs ih =>
    unfold uniqueFirstAux
    by_cases hx : x ∈ seen
    · rw [if_pos hx, ih]
      constructor
      · rintro ⟨hm, hs⟩
        exact ⟨List.mem_cons_of_mem _ hm, hs⟩
      · rintro ⟨hm, hs⟩
        rcases List.mem_cons.mp hm with rfl | hm2
        · exact absurd hx hs
        · exact ⟨hm2, hs⟩
    · rw [if_neg hx]
      constructor
      · intro hm
        rcases List.mem_cons.mp hm with rfl | hm2
        · exact ⟨List.mem_cons_self _ _, hx⟩
        · rw [ih] at hm2
          exact ⟨List.mem_cons_of_mem _ hm2.1,
            fun hs => hm2.2 (List.mem_cons_of_mem _ hs)⟩
      · rintro ⟨hm, hs⟩
        rcases List.mem_cons.mp hm with rfl | hm2
        · exact List.mem_cons_self _ _
        · by_cases hyx : y = x
          · subst hyx; exact List.mem_cons_self _ _
          · refine List.mem_cons_of_mem _ (ih.mpr ⟨hm2, fun hseen => ?_⟩)
            rcases List.mem_cons.mp hseen with h | h
            · exact hyx h
            · exact hs h

theorem nodup_uniqueFirstAux (seen l : List String) :
    (uniqueFirstAux seen l).Nodup := by
  induction l generalizing seen with
  | nil => exact List.nodup_nil
  | cons x xs ih =>
    unfold uniqueFirstAux
    by_cases hx : x ∈ seen
    · rw [if_pos hx]; exact ih seen
    · rw [if_neg hx]
      refine List.nodup_cons.mpr ⟨fun hmem => ?_, ih (x :: seen)⟩
      exact (mem_uniqueFirstAux.mp hmem).2 (List.mem_cons_self _ _)

/-- C8: for every table, the archive has exactly one entry per distinct
non-missing `Municipio` value — the entry-name list is the sorted
deduplicated municipality list suffixed with ".xlsx", it is duplicate-free,
sorted by the Python string order, and contains exactly the municipalities
present in the table; in particular municipalities B, A, C give the entry
order A.xlsx, B.xlsx, C.xlsx. -/
theorem c8_packager_order :
    (∀ (log : Option String) (now : Clock) (df : List Row)
        (filtros : List String),
      ((gerar_xlsx_por_municipio log now df filtros).map Prod.fst =
        (pySorted (municipiosOf df)).map (fun m => m ++ ".xlsx")) ∧
      (pySorted (municipiosOf df)).Sorted strLe ∧
      (pySorted (municipiosOf df)).Nodup ∧
      (∀ m : String,
        m ∈ pySorted (municipiosOf df) ↔ some m ∈ df.map (fun r => r.municipio))) ∧
    (gerar_xlsx_por_municipio none ⟨1, 1, 2025, 0, 0⟩
      [⟨none, some "B", none, 0, 0, 0, 0, 0, 0, none, ""⟩,
       ⟨none, some "A", none, 0, 0, 0, 0, 0, 0, none, ""⟩,
       ⟨none, some "C", none, 0, 0, 0, 0, 0, 0, none, ""⟩] []).map Prod.fst =
      ["A.xlsx", "B.xlsx", "C.xlsx"] := by
  constructor
  · intro log now df filtros
    refine ⟨?_, ?_, ?_, ?_⟩
    · unfold gerar_xlsx_por_municipio
      rw [List.map_map]
      rfl
    · exact List.sorted_insertionSort strLe _
    · exact ((List.perm_insertionSort strLe _).nodup_iff).mpr
        (nodup_uniqueFirstAux [] _)
    · intro m
      rw [show pySorted (municipiosOf df)
          = List.insertionSort strLe (municipiosOf df) from rfl,
        (List.perm_insertionSort strLe _).mem_iff,
        show municipiosOf df
          = uniqueFirstAux [] (df.filterMap (fun r => r.municipio)) from rfl,
        mem_uniqueFirstAux]
      simp only [List.not_mem_nil, not_false_iff, and_true]
      rw [List.mem_filterMap]
      constructor
      · rintro ⟨r, hr, hm⟩
        exact List.mem_map.mpr ⟨r, hr, hm⟩
      · intro hm
        rcases List.mem_map.mp hm with ⟨r, hr, hm2⟩
        exact ⟨r, hr, hm2⟩
  · decide

/-! ### Claim C3 — the piped-stage rule -/

/-- Proposition that `sep` occurs as a contiguous segment of `l` (the
spec-side notion behind Python `sep in s`). -/
def occursIn (sep l : List Char) : Prop := ∃ pre seg, l = pre ++ sep ++ seg

theorem leadsWith_iff {sep l : List Char} :
    leadsWith sep l = true ↔ ∃ r, l = sep ++ r := by
  induction sep generalizing l with
  | nil => simp [leadsWith]
  | cons a as ih =>
    cases l with
    | nil => simp [leadsWith]
    | cons b bs =>
      rw [show leadsWith (a :: as) (b :: bs) = (a == b && leadsWith as bs) from rfl,
        Bool.and_eq_true, beq_iff_eq, ih]
      constructor
      · rintro ⟨rfl, r, rfl⟩
        exact ⟨r, rfl⟩
      · rintro ⟨r, he⟩
        injection he with h1 h2
        exact ⟨h1.symm, r, h2⟩

theorem afterLastAux_cons (sep : List Char) (c : Char) (cs : List Char) :
    afterLastAux sep (c :: cs) =
      match afterLastAux sep cs with
      | some r => some r
      | none =>
        if leadsWith sep (c :: cs) then some ((c :: cs).drop sep.length) else none := rfl

theorem afterLastAux_cons_some {sep cs : List Char} {c : Char} {r : List Char}
    (h : afterLastAux sep cs = some r) : afterLastAux sep (c :: cs) = some r := by
  rw [afterLastAux_cons, h]

theorem afterLastAux_cons_none {sep cs : List Char} {c : Char}
    (h : afterLastAux sep cs = none) :
    afterLastAux sep (c :: cs) =
      if leadsWith sep (c :: cs) then some ((c :: cs).drop sep.length) else none := by
  rw [afterLastAux_cons, h]

theorem afterLastAux_some {sep : List Char} :
    ∀ {l seg : List Char}, afterLastAux sep l = some seg →
      ∃ pre, l = pre ++ sep ++ seg := by
  intro l
  induction l with
  | nil => intro seg h; cases h
  | cons c cs ih =>
    intro seg h
    cases hrec : afterLastAux sep cs with
    | some r =>
      rw [afterLastAux_cons_some hrec] at h
      injection h with h2
      subst h2
      rcases ih hrec with ⟨pre, hpre⟩
      exact ⟨c :: pre, by rw [hpre]; rfl⟩
    | none =>
      rw [afterLastAux_cons_none hrec] at h
      by_cases hl : leadsWith sep (c :: cs) = true
      · rw [if_pos hl] at h
        injection h with h2
        rcases leadsWith_iff.mp hl with ⟨r, hr⟩
        refine ⟨[], ?_⟩
        rw [List.nil_append, hr]
        rw [hr, List.drop_left] at h2
        rw [h2]
      · rw [if_neg hl] at h
        cases h

theorem afterLastAux_isSome_of_occurs {sep l : List Char} (hne : sep ≠ [])
    (ho : occursIn sep l) : (afterLastAux sep l).isSome = true := by
  rcases ho with ⟨pre, seg, rfl⟩
  induction pre with
  | nil =>
    cases sep with
    | nil => exact absurd rfl hne
    | cons s0 srest =>
      show (afterLastAux (s0 :: srest) (s0 :: (srest ++ seg))).isSome = true
      cases hrec : afterLastAux (s0 :: srest) (srest ++ seg) with
      | some r => rw [afterLastAux_cons_some hrec]; rfl
      | none =>
        rw [afterLastAux_cons_none hrec,
          if_pos (show leadsWith (s0 :: srest) (s0 :: (srest ++ seg)) = true from
            leadsWith_iff.mpr ⟨seg, rfl⟩)]
        rfl
  | cons p ps ih =>
    show (afterLastAux sep (p :: (ps ++ sep ++ seg))).isSome = true
    cases hrec : afterLastAux sep (ps ++ sep ++ seg) with
    | some r => rw [afterLastAux_cons_some hrec]; rfl
    | none => rw [hrec] at ih; cases ih

theorem afterLastAux_none_iff {sep l : List Char} (hne : sep ≠ []) :
    afterLastAux sep l = none ↔ ¬occursIn sep l := by
  constructor
  · intro h ho
    have hx := afterLastAux_isSome_of_occurs hne ho
    rw [h] at hx
    cases hx
  · intro ho
    cases hx : afterLastAux sep l with
    | none => rfl
    | some seg =>
      rcases afterLastAux_some hx with ⟨pre, hpre⟩
      exact absurd ⟨pre, seg, hpre⟩ ho

theorem afterLastAux_eq_of_rightmost {sep : List Char} (hne : sep ≠ []) :
    ∀ (pre : List Char) {seg : List Char},
      ¬occursIn sep (sep.drop 1 ++ seg) →
      afterLastAux sep (pre ++ sep ++ seg) = some seg := by
  intro pre
  induction pre with
  | nil =>
    intro seg hno
    cases sep with
    | nil => exact absurd rfl hne
    | cons s0 srest =>
      show afterLastAux (s0 :: srest) (s0 :: (srest ++ seg)) = some seg
      have hrecn : afterLastAux (s0 :: srest) (srest ++ seg) = none :=
        (afterLastAux_none_iff hne).mpr hno
      rw [afterLastAux_cons_none hrecn,
        if_pos (show leadsWith (s0 :: srest) (s0 :: (srest ++ seg)) = true from
          leadsWith_iff.mpr ⟨seg, rfl⟩)]
      show some (((s0 :: srest) ++ seg).drop (s0 :: srest).length) = some seg
      rw [List.drop_left]
  | cons p ps ih =>
    intro seg hno
    show afterLastAux sep (p :: (ps ++ sep ++ seg)) = some seg
    rw [afterLastAux_cons_some (ih hno)]

theorem takeWhile_append_stop {p : Char → Bool} {a : List Char} (b : List Char)
    {x : Char} (hx : x ∈ a) (hpx : p x = false) :
    (a ++ b).takeWhile p = a.takeWhile p := by
  induction a with
  | nil => cases hx
  | cons c cs ih =>
    rw [List.cons_append, List.takeWhile_cons, List.takeWhile_cons]
    by_cases hpc : p c = true
    · rw [if_pos hpc, if_pos hpc]
      rcases List.mem_cons.mp hx with rfl | hm
      · rw [hpc] at hpx; cases hpx
      · rw [ih hm]
    · rw [if_neg hpc, if_neg hpc]

theorem stripList_append_ws {a X : List Char} (ha : ∀ c ∈ a, pyWsChar c = true) :
    stripList (a ++ X) = stripList X := by
  unfold stripList stripWith
  rw [List.dropWhile_append_of_pos ha]

/-- Stripping the whole text first and stripping only the pre-pipe part
commute, whenever the text does contain a pipe: this is why the code's
`str(desc).strip()` preprocessing (line 66) is invisible in the result of the
pipe branch. -/
theorem strip_takeWhile_pipe {l : List Char} (h : '|' ∈ l) :
    stripList ((stripList l).takeWhile notPipe) = stripList (l.takeWhile notPipe) := by
  rcases stripList_decomp l with ⟨a, b, hdecomp, ha, hb⟩
  have hps : '|' ∈ stripList l := mem_stripList_of_not h (by decide)
  have hnp : notPipe '|' = false := by decide
  have hanp : ∀ c ∈ a, notPipe c = true := by
    intro c hc
    have hws := ha c hc
    rw [show notPipe c = (c != '|') from rfl, bne_iff_ne]
    intro he
    subst he
    revert hws
    decide
  conv_rhs => rw [hdecomp]
  rw [List.append_assoc, List.takeWhile_append_of_pos hanp,
    takeWhile_append_stop b hps hnp, stripList_append_ws ha]

theorem extrair_etapa_pipe {t : String} (h : '|' ∈ t.data) :
    extrair_etapa (some t) =
      match afterLastAux sepDash (stripList (t.data.takeWhile notPipe)) with
      | some seg => String.mk (stripList seg)
      | none => String.mk (stripList (t.data.takeWhile notPipe)) := by
  have hps : '|' ∈ stripList t.data := mem_stripList_of_not h (by decide)
  show (if '|' ∈ stripList t.data then
      match afterLastAux sepDash (stripList ((stripList t.data).takeWhile notPipe)) with
      | some seg => String.mk (stripList seg)
      | none => String.mk (stripList ((stripList t.data).takeWhile notPipe))
    else if stripList t.data = "TOTAL SECRETARIA".data then "TOTAL SECRETARIA"
    else "Total escola")
    = match afterLastAux sepDash (stripList (t.data.takeWhile notPipe)) with
      | some seg => String.mk (stripList seg)
      | none => String.mk (stripList (t.data.takeWhile notPipe))
  rw [if_pos hps, strip_takeWhile_pipe h]

/-- Counterexample to claim C3 as stated: on "Ens. Fund | EF - 5º Ano" the
extractor returns the trimmed pre-pipe part "Ens. Fund" (which contains no
" - " pattern), not "5º Ano" — the claimed example value contradicts the
claimed rule, and the code follows the rule. -/
theorem c3_counterexample :
    extrair_etapa (some "Ens. Fund | EF - 5º Ano") = "Ens. Fund" ∧
    extrair_etapa (some "Ens. Fund | EF - 5º Ano") ≠ "5º Ano" := by
  decide

/-- C3 amended: for every text containing a pipe, the extractor takes the
substring before the first pipe, trims it, and — when " - " occurs in that
substring — returns the trimmed segment after the last such occurrence
(characterized as the unique suffix `seg` with `parte = pre ++ " - " ++ seg`
and no further occurrence to its right), otherwise the trimmed substring
itself; missing input gives the empty string; and the example text
"Ens. Fund | EF - 5º Ano" maps to "Ens. Fund" (not "5º Ano"). -/
theorem c3_amended_piped_stage :
    (∀ t : String, '|' ∈ t.data →
      (¬occursIn sepDash (stripList (t.data.takeWhile notPipe)) →
        extrair_etapa (some t) = String.mk (stripList (t.data.takeWhile notPipe))) ∧
      (∀ pre seg : List Char,
        stripList (t.data.takeWhile notPipe) = pre ++ sepDash ++ seg →
        ¬occursIn sepDash (sepDash.drop 1 ++ seg) →
        extrair_etapa (some t) = String.mk (stripList seg))) ∧
    extrair_etapa none = "" ∧
    extrair_etapa (some "Ens. Fund | EF - 5º Ano") = "Ens. Fund" := by
  refine ⟨fun t h => ⟨fun hno => ?_, fun pre seg hdec hno => ?_⟩, rfl, by decide⟩
  · rw [extrair_etapa_pipe h,
      (afterLastAux_none_iff (by decide : sepDash ≠ [])).mpr hno]
  · rw [extrair_etapa_pipe h, hdec,
      afterLastAux_eq_of_rightmost (by decide : sepDash ≠ []) pre hno]

/-- Witness for the amended C3 at the concrete text "X - Y | Z": the pre-pipe
part is "X - Y", whose segment after the last " - " is "Y". -/
theorem c3_amended_witness : extrair_etapa (some "X - Y | Z") = "Y" := by
  have h := (c3_amended_piped_stage.1 "X - Y | Z" (by decide)).2
    "X".data "Y".data (by decide)
    ((afterLastAux_none_iff (by decide : sepDash ≠ [])).mp (by decide))
  rw [h]
  decide
